import Mathlib

/-!
Verification of the md_to_html converter (src/main.rs) against its
natural-language specification.

Lines are modelled as `List Char`.  Rust `String` indexing is by UTF-8
byte offset, so the one place where the source slices a string at a byte
offset computed from a character index is modelled by `byteDrop`, which
returns `none` exactly where the Rust program panics ("byte index is not
a char boundary").  All other string operations used by the source
(`starts_with`, `trim_end_matches`, pushing characters) are
character-based and are modelled directly on `List Char`.
-/

namespace MdToHtml

/-- Characters of a string literal, used to write concrete lines. -/
def str (s : String) : List Char := s.data

/-- Block state assigned to each line (`enum State` in the source). -/
inductive State where
  | Normal
  | OrderedList
  | UnorderedList
  | Code
deriving DecidableEq

/-- The three-backtick code-fence marker. -/
def fence3 : List Char := str "\x60\x60\x60"

/-- Remove every trailing carriage return (`trim_end_matches('\r')`). -/
def trimEndCR (l : List Char) : List Char :=
  (l.reverse.dropWhile (fun c => c = '\r')).reverse

/-- Rust `char::is_alphanumeric` (Unicode Alphabetic or Number).  Modelled
exactly for code points below 0x100 (ASCII plus the Latin-1 supplement,
whose letters are U+00AA, U+00B5, U+00BA, U+00C0-U+00FF except the two
operators U+00D7 and U+00F7, and whose numeric characters are U+00B2,
U+00B3, U+00B9 and the vulgar fractions U+00BC-U+00BE).  Code points at
or above 0x100 are treated as non-alphanumeric; no theorem below applies
the scan to such a character. -/
def rustIsAlphanumeric (c : Char) : Bool :=
  c.isAlphanum ||
  c.toNat == 0xAA || c.toNat == 0xB2 || c.toNat == 0xB3 || c.toNat == 0xB5 ||
  c.toNat == 0xB9 || c.toNat == 0xBA ||
  (0xBC ≤ c.toNat && c.toNat ≤ 0xBE) ||
  (0xC0 ≤ c.toNat && c.toNat ≤ 0xFF && c.toNat != 0xD7 && c.toNat != 0xF7)

/-- Rust byte slicing `s[n..]` on a character list: drop `n` UTF-8 bytes.
Returns `none` when `n` does not land on a character boundary or runs past
the end of the string, which is exactly where the Rust program panics. -/
def byteDrop : List Char → Nat → Option (List Char)
  | cs, 0 => some cs
  | [], _ + 1 => none
  | c :: cs, n + 1 =>
    if c.utf8Size ≤ n + 1 then byteDrop cs (n + 1 - c.utf8Size) else none

/-- The heading marker character. -/
def hashChar : Char := '#'

/-- A run of `n` heading marker characters. -/
def hashes : Nat → List Char
  | 0 => []
  | n + 1 => hashChar :: hashes n

/-- The heading identifier built by `parse_headings`: `n` hashes and a space. -/
def hashMarker (n : Nat) : List Char := hashes n ++ [' ']

/-- Decimal digits of a number, for building the `<hN>` tags. -/
def natChars (n : Nat) : List Char := Nat.toDigits 10 n

/-- The replacement `format!("<h{0}>{1}</h{0}>", n, content)`. -/
def hWrap (n : Nat) (content : List Char) : List Char :=
  str "<h" ++ natChars n ++ str ">" ++ content ++ str "</h" ++ natChars n ++ str ">"

/-- The `for i in (1..=6).rev()` loop of `parse_headings`: try the marker of
`n` hashes, then shorter ones.  The slice `&line[(i + 1)..]` drops the
`i + 1` ASCII bytes of the matched marker, i.e. `i + 1` characters. -/
def headLoop (line : List Char) : Nat → List Char
  | 0 => line
  | n + 1 =>
    if (hashMarker (n + 1)).isPrefixOf line then hWrap (n + 1) (line.drop (n + 2))
    else headLoop line n

/-- `parse_headings` from the source (src/main.rs lines 61-76). -/
def parse_headings (line : List Char) : List Char :=
  headLoop (trimEndCR line) 6

/-- The replacement `format!("<li>{}</li>", rest)`. -/
def liWrap (content : List Char) : List Char := str "<li>" ++ content ++ str "</li>"

/-- The `while let Some((i, c)) = chars.next()` scan of `parse_lists`:
`i` is the running character index, `cur` the whole (possibly already
li-wrapped) line.  On `c == '.' && i > 0` followed by a space the source
slices `&line[(i + 2)..]` — a BYTE offset computed from the CHARACTER
index `i` — so the result is `none` exactly where that slice panics. -/
def listScan (cur : List Char) : Nat → List Char → Option (List Char)
  | _, [] => some cur
  | i, c :: rest =>
    if rustIsAlphanumeric c then listScan cur (i + 1) rest
    else if c = '.' ∧ 0 < i then
      match rest with
      | ' ' :: _ => (byteDrop cur (i + 2)).map liWrap
      | _ => some cur
    else some cur

/-- `parse_lists` from the source (src/main.rs lines 78-99).  `none` models
the byte-slice panic. -/
def parse_lists (line : List Char) : Option (List Char) :=
  let l := trimEndCR line
  let l := if (str "- ").isPrefixOf l then liWrap (l.drop 2) else l
  listScan l 0 l

/-- First occurrence of the sequence `pat` inside a list: the part before
the occurrence and the part after it. -/
def splitAtSeq (pat : List Char) : List Char → Option (List Char × List Char)
  | [] => if pat.isPrefixOf [] then some ([], []) else none
  | c :: rest =>
    if pat.isPrefixOf (c :: rest) then some ([], (c :: rest).drop pat.length)
    else (splitAtSeq pat rest).map (fun p => (c :: p.1, p.2))

/-- `replace_all` for a lazy paired-delimiter pattern `op(.*?)cl`: at each
position, an opening delimiter followed by a closing one somewhere later
matches lazily (shortest content), the match is replaced by `mk content`,
and scanning resumes after the match; otherwise the scanner advances one
character.  Fuel-bounded; every call site passes the input length, which
is enough fuel because every step consumes at least one input character. -/
def replacePairF (op cl : List Char) (mk : List Char → List Char) :
    Nat → List Char → List Char
  | 0, cs => cs
  | fuel + 1, cs =>
    if op.isPrefixOf cs then
      match splitAtSeq cl (cs.drop op.length) with
      | some (x, rest) => mk x ++ replacePairF op cl mk fuel rest
      | none =>
        match cs with
        | [] => []
        | c :: rest => c :: replacePairF op cl mk fuel rest
    else
      match cs with
      | [] => []
      | c :: rest => c :: replacePairF op cl mk fuel rest

/-- Entry point of the paired-delimiter `replace_all`. -/
def replacePair (op cl : List Char) (mk : List Char → List Char) (cs : List Char) :
    List Char :=
  replacePairF op cl mk cs.length cs

/-- Replacement text of the bold regex. -/
def strongMk (x : List Char) : List Char := str "<strong>" ++ x ++ str "</strong>"

/-- Replacement text of the italic regex. -/
def emMk (x : List Char) : List Char := str "<em>" ++ x ++ str "</em>"

/-- Replacement text of the inline-code regex. -/
def codeMk (x : List Char) : List Char := str "<code>" ++ x ++ str "</code>"

/-- The two-asterisk delimiter. -/
def star2 : List Char := str "**"

/-- The one-asterisk delimiter. -/
def star1 : List Char := str "*"

/-- The one-backtick delimiter. -/
def tick1 : List Char := str "\x60"

/-- Regex 1 of `convert`: lazy bold. -/
def replaceBold (cs : List Char) : List Char := replacePair star2 star2 strongMk cs

/-- Regex 2 of `convert`: lazy italic. -/
def replaceEm (cs : List Char) : List Char := replacePair star1 star1 emMk cs

/-- Regex 5 of `convert`: lazy inline code. -/
def replaceCodeSpan (cs : List Char) : List Char := replacePair tick1 tick1 codeMk cs

/-- Replacement text of the link regex. -/
def linkMk (x y : List Char) : List Char :=
  str "<a href=\"" ++ y ++ str "\">" ++ x ++ str "</a>"

/-- Regex 3 of `convert`: the lazy link pattern.  An opening bracket
matches when the first later occurrence of the bracket-paren sequence is
followed by a closing paren somewhere after it; both lazy groups take the
shortest content.  (If no closing paren exists after the first
bracket-paren occurrence there is none after a later one either, so no
further backtracking can succeed and the scanner advances one character.) -/
def replaceLinkF : Nat → List Char → List Char
  | 0, cs => cs
  | fuel + 1, cs =>
    if (str "[").isPrefixOf cs then
      match splitAtSeq (str "](") (cs.drop 1) with
      | some (x, r1) =>
        match splitAtSeq (str ")") r1 with
        | some (y, rest) => linkMk x y ++ replaceLinkF fuel rest
        | none =>
          match cs with
          | [] => []
          | c :: rest => c :: replaceLinkF fuel rest
      | none =>
        match cs with
        | [] => []
        | c :: rest => c :: replaceLinkF fuel rest
    else
      match cs with
      | [] => []
      | c :: rest => c :: replaceLinkF fuel rest

/-- Entry point of the link `replace_all`. -/
def replaceLink (cs : List Char) : List Char := replaceLinkF cs.length cs

/-- Regex 4 of `convert`: `^---$`, anchored, so it fires only when the
whole line is exactly the three dashes. -/
def replaceHr (cs : List Char) : List Char :=
  if cs = str "---" then str "<hr/>" else cs

/-- The five regex substitutions of `parse_line`, in the order of the
`regexes` array of `convert` (src/main.rs lines 228-241). -/
def inlinePass (l : List Char) : List Char :=
  replaceCodeSpan (replaceHr (replaceLink (replaceEm (replaceBold l))))

/-- The residual fence cleanup at the end of `parse_line`: a line that
still starts with the fence marker is blanked. -/
def residualBlank (l : List Char) : List Char :=
  if fence3.isPrefixOf l then [] else l

/-- `parse_line` from the source (src/main.rs lines 101-112): headings,
then lists, then the five regexes, then the residual fence cleanup.
`none` models the `parse_lists` panic. -/
def parse_line (line : List Char) : Option (List Char) :=
  (parse_lists (parse_headings line)).map (fun l => residualBlank (inlinePass l))

/-- Pass 1 of `classify_lines`: lines starting with a dash and a space are
unordered-list lines, everything else starts as Normal. -/
def ulPass (lines : List (List Char)) : List State :=
  lines.map (fun l => if (str "- ").isPrefixOf l then State.UnorderedList else State.Normal)

/-- The ordered-list marker scan of pass 2 of `classify_lines` (same
alphanumeric-dot-space pattern as `parse_lists`, but on the raw line and
deciding only membership). -/
def ordScan : Nat → List Char → Bool
  | _, [] => false
  | i, c :: rest =>
    if rustIsAlphanumeric c then ordScan (i + 1) rest
    else if c = '.' ∧ 0 < i then
      match rest with
      | ' ' :: _ => true
      | _ => false
    else false

/-- Pass 2 of `classify_lines`, walking lines and states in lockstep
(the source indexes `states[line_index]`; a missing state would panic,
modelled by returning the truncated `[]`, which never happens because the
passes preserve length). -/
def olPass : List (List Char) → List State → List State
  | [], sts => sts
  | _ :: _, [] => []
  | l :: ls, st :: sts =>
    (if ordScan 0 l then State.OrderedList else st) :: olPass ls sts

/-- Pass 3 of `classify_lines` (src/main.rs lines 139-152): the code-fence
flag pass.  A fence line seen while inside a code block toggles the flag
off and `continue`s, keeping the state the earlier passes assigned; a
fence line seen outside toggles the flag on and is marked Code; any other
line is marked Code exactly when the flag is on. -/
def fenceGo : Bool → List (List Char) → List State → List State
  | _, [], sts => sts
  | _, _ :: _, [] => []
  | inside, l :: ls, st :: sts =>
    if fence3.isPrefixOf l then
      if inside then st :: fenceGo false ls sts
      else State.Code :: fenceGo true ls sts
    else if inside then State.Code :: fenceGo true ls sts
    else st :: fenceGo false ls sts

/-- `classify_lines` from the source (src/main.rs lines 114-153): the
three passes in order. -/
def classify_lines (lines : List (List Char)) : List State :=
  fenceGo false lines (olPass lines (ulPass lines))

/-- Does the line start with an opening angle bracket? -/
def startsWithLt : List Char → Bool
  | '<' :: _ => true
  | _ => false

/-- The `is_plain` test of `convert_lines`: Normal state, non-empty text,
and not already an HTML block element. -/
def isPlainLine (st : State) (l : List Char) : Bool :=
  (if st = State.Normal then true else false) && !l.isEmpty && !startsWithLt l

/-- The state-transition wrapping of `convert_lines` (the `match state`
on src/main.rs lines 180-204). -/
def wrapLine (prev st : State) (l : List Char) : List Char :=
  if prev = st then l
  else
    match st with
    | State.OrderedList => str "<ol>\n" ++ l
    | State.UnorderedList => str "<ul>\n" ++ l
    | State.Code => str "<pre><code>"
    | State.Normal =>
      match prev with
      | State.OrderedList => l ++ str "\n</ol>"
      | State.UnorderedList => l ++ str "\n</ul>"
      | State.Code => str "</code></pre>"
      | State.Normal => l

/-- The main loop of `convert_lines`: previous state, paragraph flag and
the output text accumulator.  A plain line opens or extends a paragraph
and — via the source's `continue` — does NOT update the previous state;
any other line closes an open paragraph, gets the transition wrapping,
and is emitted with a trailing newline.  The source indexes `states[i]`
while iterating over lines, so a missing state is a panic, modelled by
`none`. -/
def convGo (prev : State) (inPar : Bool) (text : List Char) :
    List (List Char) → List State → Option (List Char)
  | [], _ => some (if inPar then text ++ str "</p>" else text)
  | _ :: _, [] => none
  | l :: ls, st :: sts =>
    if isPlainLine st l then
      convGo prev true (if inPar then text ++ str " " ++ l else text ++ str "<p>" ++ l) ls sts
    else
      convGo st false
        ((if inPar then text ++ str "</p>\n" else text) ++ wrapLine prev st l ++ str "\n")
        ls sts

/-- `convert_lines` from the source (src/main.rs lines 156-216). -/
def convert_lines (lines : List (List Char)) (states : List State) : Option (List Char) :=
  convGo State.Normal false [] lines states

/-- The line-splitting loop of `parse_file` (src/main.rs lines 45-57):
push the current line at every newline character, and push the final
segment only when it is non-empty. -/
def splitLinesGo (cur : List Char) : List Char → List (List Char)
  | [] => if cur.isEmpty then [] else [cur]
  | c :: cs => if c = '\n' then cur :: splitLinesGo [] cs else splitLinesGo (cur ++ [c]) cs

/-- The pure part of `parse_file`: text contents to line list (the file
read itself is an external I/O wrapper, out of scope per the spec). -/
def parse_file_lines (contents : List Char) : List (List Char) :=
  splitLinesGo [] contents

/-- The transformation loop of `convert` (src/main.rs lines 244-248):
every line whose state is not Code is replaced by `parse_line` of it.
Walks lines and states in lockstep; `none` models either the
`parse_lists` panic or the (unreachable) `states[i]` out-of-bounds panic. -/
def transformLines : List (List Char) → List State → Option (List (List Char))
  | [], _ => some []
  | _ :: _, [] => none
  | l :: ls, st :: sts =>
    match (if st = State.Code then some l else parse_line l), transformLines ls sts with
    | some l2, some rest => some (l2 :: rest)
    | _, _ => none

/-- The full line pipeline of `convert`: split, classify, transform,
render.  `none` models a panic during conversion. -/
def convert_body (contents : List Char) : Option (List Char) :=
  let lines := parse_file_lines contents
  let states := classify_lines lines
  match transformLines lines states with
  | none => none
  | some ls => convert_lines ls states

/-- `LIVE_RELOAD_SCRIPT` from the source (src/main.rs lines 15-20). -/
def LIVE_RELOAD_SCRIPT : List Char :=
  str "\n<script>\n    const es = new EventSource(\x27/reload\x27);\n    es.onmessage = () => location.reload();\n</script>\n"

/-- `wrap_html` from the source (src/main.rs lines 218-223): note that the
`format!` template appends `LIVE_RELOAD_SCRIPT` unconditionally. -/
def wrap_html (body title style : List Char) : List Char :=
  str "<!DOCTYPE html><head><style>" ++ style ++ str "</style><title>" ++ title ++
    str "</title></head><body>" ++ body ++ LIVE_RELOAD_SCRIPT ++ str "</body>"

/-- The document text produced by `convert` (src/main.rs lines 225-253):
the rendered body wrapped by `wrap_html`, whose title argument is the
input path. -/
def convert_doc (contents path style : List Char) : Option (List Char) :=
  (convert_body contents).map (fun b => wrap_html b path style)

/-- Document produced by one run of the program for a given watch flag:
`main` (src/main.rs lines 304-316) calls `convert` the same way whether or
not `--watch` is given; the flag only controls the server and the watcher,
so the produced document ignores it. -/
def output_document (contents path style : List Char) (_watch : Bool) : Option (List Char) :=
  convert_doc contents path style

/-- Does the character list contain the sequence `pat`? -/
def containsSeq (pat cs : List Char) : Bool := (splitAtSeq pat cs).isSome

/-- The document shell without the script and the closing body tag,
assembled from the claim's wording (doctype, style block, title, body). -/
def docShell (body title style : List Char) : List Char :=
  str "<!DOCTYPE html><head><style>" ++ style ++ str "</style><title>" ++ title ++
    str "</title></head><body>" ++ body

/-- Rust `str::trim`, modelled for ASCII whitespace. -/
def rustTrim (l : List Char) : List Char :=
  ((l.dropWhile Char.isWhitespace).reverse.dropWhile Char.isWhitespace).reverse

/-- The code-fence pass exactly as claim C2 words it, INCLUDING the
"trimmed text" part: the flag is toggled by lines whose trimmed text
starts with the fence marker, a line is Code exactly when the flag is
true after the toggle, and otherwise it keeps the state the earlier
passes gave it. -/
def specFenceTrim : Bool → List (List Char × State) → List State
  | _, [] => []
  | flag, (l, st) :: rest =>
    let flag2 := if fence3.isPrefixOf (rustTrim l) then !flag else flag
    (if flag2 then State.Code else st) :: specFenceTrim flag2 rest

/-- The code-fence pass of claim C2 with the amendment: the flag is
toggled by lines whose (untrimmed) text starts with the fence marker. -/
def specFence : Bool → List (List Char × State) → List State
  | _, [] => []
  | flag, (l, st) :: rest =>
    let flag2 := if fence3.isPrefixOf l then !flag else flag
    (if flag2 then State.Code else st) :: specFence flag2 rest

/-- The C2 claim's fence pass (trimmed variant) applied on top of the
earlier passes. -/
def specFenceTrimPass (lines : List (List Char)) : List State :=
  specFenceTrim false (List.zip lines (olPass lines (ulPass lines)))

/-- Events of the watch-reload bridge: a file-change callback firing, or
one poll iteration of a `/reload` handler observing the shared flag. -/
inductive BridgeEvent where
  | fileChange
  | reloadPoll
deriving DecidableEq

/-- The shared reload signal plus a count of delivered reload events. -/
structure BridgeState where
  flag : Bool
  delivered : Nat
deriving DecidableEq

/-- One step of the watch-reload bridge, modelled from the source: the
watcher callback (src/main.rs lines 323-330) re-runs `convert` and then
stores true into the shared flag; a `/reload` handler poll (lines
266-278) that observes true stores false, responds with exactly one
reload event and ends the request, and a poll that observes false
changes nothing and sleeps. -/
def bridgeStep (s : BridgeState) : BridgeEvent → BridgeState
  | BridgeEvent.fileChange => { s with flag := true }
  | BridgeEvent.reloadPoll =>
    if s.flag then { flag := false, delivered := s.delivered + 1 } else s

/-- Run the bridge over a sequence of events. -/
def bridgeRun (s : BridgeState) (evs : List BridgeEvent) : BridgeState :=
  evs.foldl bridgeStep s

/-- Reference splitter for claim C10: split at every newline, keeping all
segments (n newlines yield n + 1 segments, possibly empty). -/
def splitAll : List Char → List (List Char)
  | [] => [[]]
  | c :: cs =>
    if c = '\n' then [] :: splitAll cs
    else
      match splitAll cs with
      | [] => [[c]]
      | s :: ss => (c :: s) :: ss

/-- Drop the last element of a line list when it is the empty line. -/
def stripLastEmpty : List (List Char) → List (List Char)
  | [] => []
  | [l] => if l = [] then [] else [l]
  | l :: l2 :: ls => l :: stripLastEmpty (l2 :: ls)

/-- Prepend a prefix onto the first segment of a line list. -/
def consFirst (cur : List Char) : List (List Char) → List (List Char)
  | [] => []
  | s :: ss => (cur ++ s) :: ss

/-! Helper lemmas, shared by the claim theorems below. -/

theorem containsSeq_of_isPrefixOf {pat l : List Char} (h : pat.isPrefixOf l = true) :
    containsSeq pat l = true := by
  cases l with
  | nil => simp [containsSeq, splitAtSeq, h]
  | cons c cs => simp [containsSeq, splitAtSeq, h]

theorem containsSeq_append_left (pat : List Char) :
    ∀ (x l : List Char), containsSeq pat l = true → containsSeq pat (x ++ l) = true := by
  intro x
  induction x with
  | nil => intro l h; simpa using h
  | cons c cs ih =>
    intro l h
    have h2 := ih l h
    simp only [containsSeq] at h2 ⊢
    show (splitAtSeq pat (c :: (cs ++ l))).isSome = true
    by_cases hp : pat.isPrefixOf (c :: (cs ++ l)) = true
    · rw [splitAtSeq, if_pos hp]
      rfl
    · rw [splitAtSeq, if_neg hp]
      obtain ⟨v, hv⟩ := Option.isSome_iff_exists.mp h2
      simp [hv]

theorem isPrefixOf_extend (p l y : List Char) (h : p.isPrefixOf l = true) :
    p.isPrefixOf (l ++ y) = true :=
  List.isPrefixOf_iff_prefix.mpr
    ((List.isPrefixOf_iff_prefix.mp h).trans (List.prefix_append l y))

theorem containsSeq_append_right (pat : List Char) :
    ∀ (l y : List Char), containsSeq pat l = true → containsSeq pat (l ++ y) = true := by
  intro l
  induction l with
  | nil =>
    intro y h
    simp only [containsSeq, splitAtSeq] at h
    by_cases hp : pat.isPrefixOf ([] : List Char) = true
    · exact containsSeq_of_isPrefixOf (isPrefixOf_extend pat [] y hp)
    · rw [if_neg hp] at h
      simp at h
  | cons c cs ih =>
    intro y h
    simp only [containsSeq] at h ⊢
    show (splitAtSeq pat (c :: (cs ++ y))).isSome = true
    by_cases hp : pat.isPrefixOf (c :: (cs ++ y)) = true
    · rw [splitAtSeq, if_pos hp]
      rfl
    · rw [splitAtSeq, if_neg hp]
      by_cases hp0 : pat.isPrefixOf (c :: cs) = true
      · exact absurd (isPrefixOf_extend pat (c :: cs) y hp0) hp
      · rw [splitAtSeq, if_neg hp0] at h
        obtain ⟨v, hv⟩ := Option.isSome_iff_exists.mp h
        obtain ⟨w, hw, _⟩ := Option.map_eq_some'.mp hv
        have h2 : containsSeq pat (cs ++ y) = true := ih y (by simp [containsSeq, hw])
        simp only [containsSeq] at h2
        obtain ⟨u, hu⟩ := Option.isSome_iff_exists.mp h2
        simp [hu]

theorem ulPass_length (lines : List (List Char)) : (ulPass lines).length = lines.length := by
  simp [ulPass]

theorem olPass_length :
    ∀ (ls : List (List Char)) (sts : List State),
      sts.length = ls.length → (olPass ls sts).length = ls.length := by
  intro ls
  induction ls with
  | nil => intro sts h; simpa [olPass] using h
  | cons l ls ih =>
    intro sts h
    cases sts with
    | nil => simp at h
    | cons st sts =>
      simp only [List.length_cons] at h
      simp [olPass, ih sts (Nat.succ_injective h)]

theorem fenceGo_length :
    ∀ (ls : List (List Char)) (flag : Bool) (sts : List State),
      sts.length = ls.length → (fenceGo flag ls sts).length = ls.length := by
  intro ls
  induction ls with
  | nil => intro flag sts h; simpa [fenceGo] using h
  | cons l ls ih =>
    intro flag sts h
    cases sts with
    | nil => simp at h
    | cons st sts =>
      simp only [List.length_cons] at h
      have h2 := Nat.succ_injective h
      by_cases hf : fence3.isPrefixOf l = true
      · cases flag <;> simp [fenceGo, hf, ih, h2]
      · cases flag <;> simp [fenceGo, hf, ih, h2]

theorem classify_length (lines : List (List Char)) :
    (classify_lines lines).length = lines.length := by
  unfold classify_lines
  exact fenceGo_length lines false _ (olPass_length lines _ (ulPass_length lines))

theorem transformLines_length :
    ∀ (ls : List (List Char)) (sts : List State) (out : List (List Char)),
      transformLines ls sts = some out → out.length = ls.length := by
  intro ls
  induction ls with
  | nil =>
    intro sts out h
    simp only [transformLines, Option.some.injEq] at h
    simp [← h]
  | cons l ls ih =>
    intro sts out h
    cases sts with
    | nil => simp [transformLines] at h
    | cons st sts =>
      simp only [transformLines] at h
      cases h1 : (if st = State.Code then some l else parse_line l) with
      | none => rw [h1] at h; simp at h
      | some l2 =>
        cases h2 : transformLines ls sts with
        | none => rw [h1, h2] at h; simp at h
        | some rest =>
          rw [h1, h2] at h
          simp only [Option.some.injEq] at h
          subst h
          simp [ih sts rest h2]

theorem fenceGo_eq_specFence :
    ∀ (ls : List (List Char)) (flag : Bool) (sts : List State),
      sts.length = ls.length → fenceGo flag ls sts = specFence flag (List.zip ls sts) := by
  intro ls
  induction ls with
  | nil => intro flag sts h; simp [fenceGo, specFence, List.length_eq_zero.mp h]
  | cons l ls ih =>
    intro flag sts h
    cases sts with
    | nil => simp at h
    | cons st sts =>
      simp only [List.length_cons] at h
      have h2 := Nat.succ_injective h
      by_cases hf : fence3.isPrefixOf l = true
      · cases flag <;> simp [fenceGo, specFence, hf, ih _ _ h2, List.zip]
      · cases flag <;> simp [fenceGo, specFence, hf, ih _ _ h2, List.zip]

theorem bridgeRun_changes :
    ∀ (n : Nat) (s : BridgeState), 0 < n →
      List.foldl bridgeStep s (List.replicate n BridgeEvent.fileChange) =
        { flag := true, delivered := s.delivered } := by
  intro n
  induction n with
  | zero => intro s h; exact absurd h (by simp)
  | succ n ih =>
    intro s _
    rw [List.replicate_succ]
    simp only [List.foldl_cons]
    cases n with
    | zero => simp [bridgeStep]
    | succ m => exact ih { s with flag := true } (Nat.succ_pos m)

theorem splitAll_ne_nil : ∀ (cs : List Char), splitAll cs ≠ [] := by
  intro cs
  cases cs with
  | nil => simp [splitAll]
  | cons c cs =>
    by_cases hc : c = '\n'
    · simp [splitAll, hc]
    · cases h : splitAll cs with
      | nil => simp [splitAll, hc, h]
      | cons s ss => simp [splitAll, hc, h]

theorem stripLastEmpty_cons (a : List Char) (l : List (List Char)) (h : l ≠ []) :
    stripLastEmpty (a :: l) = a :: stripLastEmpty l := by
  cases l with
  | nil => exact absurd rfl h
  | cons b bs => rfl

theorem consFirst_nil_left : ∀ (l : List (List Char)), consFirst [] l = l := by
  intro l
  cases l with
  | nil => rfl
  | cons s ss => simp [consFirst]

theorem wrap_html_contains_script (b t s : List Char) :
    containsSeq LIVE_RELOAD_SCRIPT (wrap_html b t s) = true := by
  unfold wrap_html
  apply containsSeq_append_right
  apply containsSeq_append_left
  exact containsSeq_of_isPrefixOf (List.isPrefixOf_iff_prefix.mpr (List.prefix_refl _))

theorem splitLinesGo_eq :
    ∀ (cs cur : List Char),
      splitLinesGo cur cs = stripLastEmpty (consFirst cur (splitAll cs)) := by
  intro cs
  induction cs with
  | nil =>
    intro cur
    simp only [splitLinesGo, splitAll, consFirst, List.append_nil, stripLastEmpty]
    by_cases h : cur = []
    · simp [h, List.isEmpty_iff]
    · simp [h, List.isEmpty_iff]
  | cons c cs ih =>
    intro cur
    by_cases hc : c = '\n'
    · have hne := splitAll_ne_nil cs
      simp only [splitLinesGo, hc, if_true, splitAll, consFirst, List.append_nil]
      rw [ih [], consFirst_nil_left, stripLastEmpty_cons cur _ hne]
    · obtain ⟨s, ss, hss⟩ : ∃ s ss, splitAll cs = s :: ss := by
        cases h : splitAll cs with
        | nil => exact absurd h (splitAll_ne_nil cs)
        | cons s ss => exact ⟨s, ss, rfl⟩
      simp only [splitLinesGo, hc, if_false, splitAll]
      rw [ih (cur ++ [c]), hss]
      simp [consFirst, List.append_assoc]

/-! Claim theorems. -/

/-- Claim C1 (code bug): the claim — backed by the spec's "never crashing
the pipeline" — says `parse_lists` returns a value for every possible line
content and the whole conversion completes without error.  The code
violates it: `parse_lists` slices the line at BYTE offset `i + 2` where
`i` is the CHARACTER index of the dot of an ordered-list marker, so on
the single line "ééé. x" (dot at character index 3, byte offset 6) the
slice at byte 5 falls inside the third two-byte character and the Rust
program panics, aborting the conversion. -/
theorem c1_pipeline_panics :
    parse_lists (str "ééé. x") = none ∧ convert_body (str "ééé. x") = none := by
  exact ⟨by decide, by decide⟩

/-- Claim C2 counterexample: the claim says the fence flag is toggled by
lines whose TRIMMED text starts with the marker and that a line is Code
exactly when the flag is true after the toggle.  On the single line
consisting of a space followed by three backticks, that reading assigns
Code, but `classify_lines` tests `starts_with` on the untrimmed line, the
flag never toggles, and the line stays Normal. -/
theorem c2_fence_trim_counterexample :
    specFenceTrimPass [str " \x60\x60\x60"] = [State.Code] ∧
    classify_lines [str " \x60\x60\x60"] = [State.Normal] := by
  exact ⟨by decide, by decide⟩

/-- Claim C2 as amended: with "trimmed" dropped — the flag starts false
and is toggled exactly by lines whose (untrimmed) text starts with the
three-backtick marker — the fence pass of `classify_lines` assigns Code
to exactly the lines for which the flag is true after the toggle
(including the opening fence) and leaves a closing fence line (flag
true to false) with the classification the earlier passes gave it. -/
theorem c2_fence_pass (lines : List (List Char)) :
    classify_lines lines =
      specFence false (List.zip lines (olPass lines (ulPass lines))) := by
  unfold classify_lines
  exact fenceGo_eq_specFence lines false _ (olPass_length lines _ (ulPass_length lines))

/-- Claim C3 counterexample: the claim says the reload-listener script is
appended if and only if live mode is enabled, but the document produced
with the watch flag off is identical to the one produced with it on and
contains `LIVE_RELOAD_SCRIPT`: the `format!` template of `wrap_html`
appends the script unconditionally. -/
theorem c3_script_counterexample :
    output_document (str "hello") (str "in.md") (str "css") false =
      output_document (str "hello") (str "in.md") (str "css") true ∧
    containsSeq LIVE_RELOAD_SCRIPT
      (wrap_html (str "<p>hello</p>") (str "in.md") (str "css")) = true :=
  ⟨rfl, wrap_html_contains_script _ _ _⟩

/-- Claim C3 as amended: for every body, title and style the wrapped
output consists of the doctype, a style block containing the supplied
style text, a title equal to the title argument (which the pipeline sets
to the input path), and the rendered body — with the reload-listener
script fragment appended UNCONDITIONALLY, in watch and non-watch mode
alike (the watch flag does not influence the produced document). -/
theorem c3_document_shell :
    (∀ body title style : List Char,
        wrap_html body title style =
          docShell body title style ++ LIVE_RELOAD_SCRIPT ++ str "</body>") ∧
    (∀ body title style : List Char,
        containsSeq LIVE_RELOAD_SCRIPT (wrap_html body title style) = true) ∧
    (∀ (contents path style : List Char) (w1 w2 : Bool),
        output_document contents path style w1 = output_document contents path style w2) := by
  refine ⟨?_, ?_, ?_⟩
  · intro b t s
    simp [wrap_html, docShell, List.append_assoc]
  · intro b t s
    exact wrap_html_contains_script b t s
  · intro c p s w1 w2
    rfl

/-- Claim C4 counterexample: on the input consisting exactly of the lines
"- a" and "- b" the pipeline does NOT produce the claimed body ending in
a closing list tag — the renderer emits the closing `</ul>` only when a
later Normal-state line is rendered, and at end of input there is none. -/
theorem c4_list_counterexample :
    convert_body (str "- a\n- b") ≠
      some (str "<ul>\n<li>a</li>\n<li>b</li>\n</ul>") := by
  decide

/-- Claim C4 as amended: the pipeline on exactly "- a" and "- b" produces
the body with the `<ul>` opened before the first item and each item
wrapped in `<li>` tags, but with no closing `</ul>` because the input
ends while still inside the list. -/
theorem c4_list_render :
    convert_body (str "- a\n- b") = some (str "<ul>\n<li>a</li>\n<li>b</li>\n") := by
  decide

/-- Claim C5 counterexample: the claim says the closing fence line of a
plain code block — text exactly three backticks, state not Code — is
blanked to an empty line by the transformer.  It is not: the inline-code
regex first consumes the first two backticks (lazy empty match), turning
the line into `<code></code>` followed by the leftover third backtick, so
the line no longer starts with the fence marker and the residual cleanup
does not fire. -/
theorem c5_fence_counterexample :
    parse_line fence3 = some (str "<code></code>\x60") ∧
    str "<code></code>\x60" ≠ ([] : List Char) := by
  exact ⟨by decide, by decide⟩

/-- Claim C5 as amended: the transformer's final step does blank any text
that still starts with the three-backtick marker after the heading, list
and inline-span substitutions, but a line whose text is exactly three
backticks never reaches that step intact — the inline-code substitution
rewrites it to `<code></code>` plus a stray backtick, which is what the
transformer returns for the closing fence line instead of an empty line. -/
theorem c5_residual_blank :
    (∀ l : List Char, fence3.isPrefixOf l = true → residualBlank l = []) ∧
    parse_line fence3 = some (str "<code></code>\x60") := by
  constructor
  · intro l h
    unfold residualBlank
    rw [if_pos h]
  · decide

/-- Witness for claim C5's amended theorem at a concrete blanked input. -/
theorem c5_residual_blank_witness : residualBlank (str "\x60\x60\x60rust") = [] :=
  c5_residual_blank.1 (str "\x60\x60\x60rust") (by decide)

/-- Claim C6: the heading step replaces a line whose (CR-trimmed) text
starts with exactly `n` hashes and a space (1 ≤ n ≤ 6) by
`<hn>content</hn>` where content is everything after the marker; a line
starting with seven hashes matches no marker and is left unchanged; in
particular "### Title" becomes `<h3>Title</h3>` and "####### x" passes
through untouched. -/
theorem c6_headings :
    (∀ (line : List Char) (n : Nat), 1 ≤ n → n ≤ 6 →
        (hashMarker n).isPrefixOf (trimEndCR line) = true →
        parse_headings line = hWrap n ((trimEndCR line).drop (n + 1))) ∧
    (∀ line : List Char, (hashes 7).isPrefixOf (trimEndCR line) = true →
        parse_headings line = trimEndCR line) ∧
    parse_headings (str "### Title") = str "<h3>Title</h3>" ∧
    parse_headings (str "####### x") = str "####### x" := by
  refine ⟨?_, ?_, by decide, by decide⟩
  · intro line n h1 h6 hpre
    obtain ⟨t, ht⟩ := List.isPrefixOf_iff_prefix.mp hpre
    show headLoop (trimEndCR line) 6 = hWrap n ((trimEndCR line).drop (n + 1))
    rw [← ht]
    interval_cases n <;>
      simp +decide [headLoop, hashMarker, hashes, hashChar, List.isPrefixOf]
  · intro line hpre
    obtain ⟨t, ht⟩ := List.isPrefixOf_iff_prefix.mp hpre
    show headLoop (trimEndCR line) 6 = trimEndCR line
    rw [← ht]
    simp +decide [headLoop, hashMarker, hashes, hashChar, List.isPrefixOf]

/-- Witness for claim C6 at a concrete heading line. -/
theorem c6_headings_witness : parse_headings (str "## ab") = str "<h2>ab</h2>" :=
  c6_headings.1 (str "## ab") 2 (by decide) (by decide) (by decide)

/-- Claim C7: `classify_lines` returns one state per line, and the
transformation loop neither deletes nor splits lines, so the line and
state sequences have equal length at every stage of the pipeline. -/
theorem c7_lengths (lines : List (List Char)) (states : List State)
    (out : List (List Char)) :
    (classify_lines lines).length = lines.length ∧
    (transformLines lines states = some out → out.length = lines.length) :=
  ⟨classify_length lines, transformLines_length lines states out⟩

/-- Witness for claim C7 at a concrete one-line input. -/
theorem c7_lengths_witness :
    (classify_lines [str "- a"]).length = [str "- a"].length ∧
    [str "<li>a</li>"].length = [str "- a"].length :=
  ⟨(c7_lengths [str "- a"] [State.UnorderedList] [str "<li>a</li>"]).1,
   (c7_lengths [str "- a"] [State.UnorderedList] [str "<li>a</li>"]).2 (by decide)⟩

/-- Claim C8: conversion is deterministic — the pipeline output depends
only on the input text, the input path and the style text, so two runs on
equal inputs produce byte-identical documents.  (In this embedding the
pipeline is a pure function of exactly these three inputs, reflecting
that the source pipeline reads no clock, randomness or other state.) -/
theorem c8_deterministic (t1 t2 p1 p2 s1 s2 : List Char)
    (ht : t1 = t2) (hp : p1 = p2) (hs : s1 = s2) :
    convert_doc t1 p1 s1 = convert_doc t2 p2 s2 := by
  subst ht
  subst hp
  subst hs
  rfl

/-- Witness for claim C8 at a concrete input. -/
theorem c8_deterministic_witness :
    convert_doc (str "# hi") (str "in.md") (str "css") =
      convert_doc (str "# hi") (str "in.md") (str "css") :=
  c8_deterministic _ _ _ _ _ _ rfl rfl rfl

/-- Claim C9: reload signals coalesce — any two or more file-change
events before a `/reload` handler polls set the shared flag, and the
single handler that then observes it resets the flag and delivers exactly
one reload event, not one per change. -/
theorem c9_reload_coalesce (n : Nat) (h : 2 ≤ n) :
    bridgeRun ⟨false, 0⟩
        (List.replicate n BridgeEvent.fileChange ++ [BridgeEvent.reloadPoll]) =
      ⟨false, 1⟩ := by
  unfold bridgeRun
  rw [List.foldl_append,
      bridgeRun_changes n ⟨false, 0⟩ (lt_of_lt_of_le (by decide) h)]
  rfl

/-- Witness for claim C9 with two file-change events. -/
theorem c9_reload_coalesce_witness :
    bridgeRun ⟨false, 0⟩
        (List.replicate 2 BridgeEvent.fileChange ++ [BridgeEvent.reloadPoll]) =
      ⟨false, 1⟩ :=
  c9_reload_coalesce 2 (by decide)

/-- Claim C10 counterexample: the claim says that for every input text
ending in a newline the result has no trailing empty line, but the text
"a" followed by two newlines ends in a newline and splits into the line
"a" followed by a (trailing) empty line: only the segment after the LAST
newline is dropped-when-empty; empty segments between consecutive
newlines are kept. -/
theorem c10_trailing_counterexample :
    (str "a\n\n").getLast? = some '\n' ∧
    parse_file_lines (str "a\n\n") = [str "a", []] ∧
    (parse_file_lines (str "a\n\n")).getLast? = some ([] : List Char) := by
  exact ⟨by decide, by decide, by decide⟩

/-- Claim C10 as amended: the Line Loader splits the text at every
newline character (carriage returns are kept in the line text) and the
result is exactly the full newline-split of the text with its final
segment omitted when that segment is empty; in particular a non-empty
final segment without a terminating newline is still included, and the
final newline itself contributes no extra empty line (though empty lines
arising between consecutive newlines remain). -/
theorem c10_split_lines (contents : List Char) :
    parse_file_lines contents = stripLastEmpty (splitAll contents) := by
  unfold parse_file_lines
  rw [splitLinesGo_eq, consFirst_nil_left]

end MdToHtml
